import Mathlib

/-!
Verification of the typing-speed-tester core logic (src/minipython.py).

The session state of `TypingTester` is embedded as a record of the four
fields the scoring logic reads and writes (`start_time`, `end_time`,
`running`, `sample`); the contents of the input widget are passed to each
operation as an explicit `raw` string, and the wall clock is passed as an
explicit `now` timestamp.  Timestamps are rationals.  Python floats in this
program only ever hold exactly representable quantities over the inputs we
reason about, so rational arithmetic models the computations of `finish`
faithfully apart from rounding at extreme magnitudes, which no claim here
depends on.
-/

/-- Python truthiness of the optional float `self.start_time`: `None` and
`0.0` are falsy, every other value truthy (used by `not self.start_time`
on line 126 and `if self.start_time` on line 131 of the source). -/
def truthyTime : Option ℚ → Bool
  | none => false
  | some t => decide (t ≠ 0)

/-- Session state of `TypingTester`: the fields touched by the scoring
logic.  `start_time`/`end_time` are `None` or a wall-clock timestamp. -/
structure TesterState where
  start_time : Option ℚ
  end_time : Option ℚ
  running : Bool
  sample : List Char
deriving DecidableEq, Repr

/-- The result triple displayed by `TypingTester.finish`. -/
structure FinishResult where
  elapsed : ℚ
  wpm : ℚ
  accuracy : ℚ
deriving DecidableEq, Repr

/-- Python `s.rstrip(chr(10))`: remove every trailing newline character. -/
def rstripNewlines (s : List Char) : List Char :=
  ((s.reverse).dropWhile (fun c => c == '\n')).reverse

/-- `TypingTester.get_typed_text` (lines 122-123): the raw contents of the
input widget with all trailing newlines stripped. -/
def get_typed_text (raw : List Char) : List Char :=
  rstripNewlines raw

/-- The loop of lines 135-138: count positions `i` with `i < len(typed)`,
`i < len(sample)` and `typed[i] == sample[i]`. -/
def correctChars : List Char → List Char → ℕ
  | tc :: ts, sc :: ss => (if tc = sc then 1 else 0) + correctChars ts ss
  | _, _ => 0

/-- Line 131: `elapsed = self.end_time - self.start_time if self.start_time
else 0.0`. -/
def elapsedOf (startT : Option ℚ) (endT : ℚ) : ℚ :=
  if truthyTime startT then endT - startT.getD 0 else 0

/-- Line 143: `minutes = elapsed / 60 if elapsed > 0 else 1e-9`. -/
def minutesOf (elapsed : ℚ) : ℚ :=
  if 0 < elapsed then elapsed / 60 else 1 / 1000000000

/-- Line 144: `wpm = (correct_chars / 5) / minutes`, as a function of the
correct-character count and the elapsed seconds. -/
def wpmOf (correct : ℕ) (elapsed : ℚ) : ℚ :=
  ((correct : ℚ) / 5) / minutesOf elapsed

/-- Line 146: `accuracy = (correct_chars / total_typed * 100) if
total_typed > 0 else 0.0`. -/
def accuracyOf (correct total : ℕ) : ℚ :=
  if 0 < total then (correct : ℚ) / (total : ℚ) * 100 else 0

/-- `TypingTester.finish` (lines 125-155).  Returns `none` exactly when the
guard on line 126 fires (the NotStarted branch, which shows an info box and
leaves the state unchanged); otherwise returns the updated state and the
displayed result triple. -/
def finish (st : TesterState) (raw : List Char) (now : ℚ) :
    Option (TesterState × FinishResult) :=
  if st.running = false ∧ truthyTime st.start_time = false then
    none
  else
    let elapsed := elapsedOf st.start_time now
    let typed := get_typed_text raw
    let correct := correctChars typed st.sample
    some ({ st with end_time := some now, running := false },
          { elapsed := elapsed,
            wpm := wpmOf correct elapsed,
            accuracy := accuracyOf correct typed.length })

/-- `TypingTester.on_key_press` (lines 104-120).  `eventChar` is
`event.char`.  Returns the state after the handler's own mutations together
with a flag telling whether the handler reached the `self.finish()` call on
line 120 (the auto-finish). -/
def on_key_press (st : TesterState) (eventChar : List Char)
    (raw : List Char) (now : ℚ) : TesterState × Bool :=
  if st.running = false ∧ eventChar.length = 0 then
    (st, false)
  else
    let st1 := if st.running then st
               else { st with start_time := some now, running := true }
    (st1, decide (st1.sample.length ≤ (get_typed_text raw).length))

/-- `TypingTester.reset` (lines 93-102) restricted to the session fields:
`start_time`, `end_time` and `running` are cleared; the `clear_text`
parameter and the label updates only touch widgets, not session state. -/
def reset (st : TesterState) : TesterState :=
  { st with start_time := none, end_time := none, running := false }

/-- `TypingTester.new_text` (lines 83-91): pick a new sample, then
`self.reset(clear_text=False)`. -/
def new_text (st : TesterState) (choice : List Char) : TesterState :=
  reset { st with sample := choice }

/-- Helper: the explicit shape of a successful `finish` call. -/
theorem finish_eq_some_iff (st : TesterState) (raw : List Char) (now : ℚ)
    (p : TesterState × FinishResult) (h : finish st raw now = some p) :
    p = ({ st with end_time := some now, running := false },
         { elapsed := elapsedOf st.start_time now,
           wpm := wpmOf (correctChars (get_typed_text raw) st.sample)
                    (elapsedOf st.start_time now),
           accuracy := accuracyOf (correctChars (get_typed_text raw) st.sample)
                         (get_typed_text raw).length }) := by
  unfold finish at h
  split at h
  · exact absurd h (by simp)
  · exact (Option.some.inj h).symm

/-- Helper: `correctChars` never exceeds either length. -/
theorem correctChars_le_min_length (T S : List Char) :
    correctChars T S ≤ min T.length S.length := by
  induction T generalizing S with
  | nil => simp [correctChars]
  | cons t ts ih =>
    cases S with
    | nil => simp [correctChars]
    | cons s ss =>
      have h := ih ss
      unfold correctChars
      split <;> simp only [List.length_cons] <;> omega

/-- Helper: `accuracyOf` lies in `[0, 100]` whenever `correct ≤ total`. -/
theorem accuracyOf_mem_Icc (correct total : ℕ) (h : correct ≤ total) :
    0 ≤ accuracyOf correct total ∧ accuracyOf correct total ≤ 100 := by
  unfold accuracyOf
  split
  · rename_i hpos
    have htot : (0 : ℚ) < total := by exact_mod_cast hpos
    constructor
    · positivity
    · have hdiv : (correct : ℚ) / (total : ℚ) ≤ 1 := by
        rw [div_le_one htot]; exact_mod_cast h
      calc (correct : ℚ) / total * 100 ≤ 1 * 100 := by
            exact mul_le_mul_of_nonneg_right hdiv (by norm_num)
        _ = 100 := by norm_num
  · norm_num

/-- C1: if the typed text `T` is a prefix of the sample `S` of length `k`,
the `correct_chars` loop of `finish` counts exactly `k` matches. -/
theorem correctChars_of_prefix (S T : List Char) (h : T <+: S) :
    correctChars T S = T.length := by
  induction T generalizing S with
  | nil => cases S <;> simp [correctChars]
  | cons t ts ih =>
    obtain ⟨u, rfl⟩ := h
    simp [correctChars, ih (ts ++ u) ⟨u, rfl⟩, Nat.add_comm]

/-- Witness for C1 at `T = "ca"`, `S = "cat"`. -/
theorem correctChars_of_prefix_witness :
    ("ca".toList <+: "cat".toList) ∧
    correctChars ("ca".toList) ("cat".toList) = ("ca".toList).length :=
  ⟨⟨['t'], rfl⟩, correctChars_of_prefix ("cat".toList) ("ca".toList) ⟨['t'], rfl⟩⟩

/-- C3: sample `"cat"`, typed `"cxt"`, elapsed exactly 3 seconds
(started at 1, finished at 4): `correct_chars = 2`, `wpm = 8`,
`accuracy = 200/3` percent. -/
theorem finish_scenario_B :
    correctChars ("cxt".toList) ("cat".toList) = 2 ∧
    finish ⟨some 1, none, true, "cat".toList⟩ ("cxt".toList) 4 =
      some (⟨some 1, some 4, false, "cat".toList⟩, ⟨3, 8, 200/3⟩) := by
  constructor
  · decide
  · simp [finish, elapsedOf, truthyTime, get_typed_text, rstripNewlines,
      wpmOf, minutesOf, accuracyOf]
    norm_num [correctChars, String.toList, if_neg (show ¬('x' = 'a') by decide)]

/-- C6: on a keystroke while `running` is true, whenever the stripped typed
text has reached the sample's length the handler invokes `finish`, and that
`finish` call succeeds; the characters' correctness is never consulted. -/
theorem on_key_press_auto_finish (st : TesterState) (ev raw : List Char)
    (now : ℚ) (hrun : st.running = true)
    (hlen : st.sample.length ≤ (get_typed_text raw).length) :
    on_key_press st ev raw now = (st, true) ∧
    (finish st raw now).isSome = true := by
  constructor
  · simp [on_key_press, hrun, hlen]
  · simp [finish, hrun]

/-- Witness for C6: sample of length 10, ten incorrect characters typed. -/
theorem on_key_press_auto_finish_witness :
    (⟨some 1, none, true, "abcdefghij".toList⟩ : TesterState).running = true ∧
    (⟨some 1, none, true, "abcdefghij".toList⟩ : TesterState).sample.length ≤
      (get_typed_text ("0123456789".toList)).length ∧
    on_key_press ⟨some 1, none, true, "abcdefghij".toList⟩ ['9']
        ("0123456789".toList) 2 =
      (⟨some 1, none, true, "abcdefghij".toList⟩, true) :=
  ⟨rfl, by decide,
    (on_key_press_auto_finish ⟨some 1, none, true, "abcdefghij".toList⟩ ['9']
      ("0123456789".toList) 2 rfl (by decide)).1⟩

/-- C8: `reset` clears `start_time`, `end_time` and `running` while leaving
`sample` untouched; no other operation changes `sample` either — only
`new_text` replaces it with the newly chosen passage. -/
theorem reset_clears_timing_preserves_sample (st : TesterState) :
    (reset st).start_time = none ∧ (reset st).end_time = none ∧
    (reset st).running = false ∧ (reset st).sample = st.sample ∧
    (∀ ev raw now, ((on_key_press st ev raw now).1).sample = st.sample) ∧
    (∀ raw now p, finish st raw now = some p → p.1.sample = st.sample) ∧
    (∀ choice, (new_text st choice).sample = choice) := by
  refine ⟨rfl, rfl, rfl, rfl, ?_, ?_, fun choice => rfl⟩
  · intro ev raw now
    unfold on_key_press
    split
    · rfl
    · dsimp only
      split <;> rfl
  · intro raw now p h
    rw [finish_eq_some_iff st raw now p h]

/-- Witness for C8 at a concrete running state. -/
theorem reset_clears_timing_preserves_sample_witness :
    (reset ⟨some 1, some 2, true, "cat".toList⟩).sample = "cat".toList ∧
    finish ⟨some 1, some 2, true, "cat".toList⟩ [] 3 =
      some (⟨some 1, some 3, false, "cat".toList⟩, ⟨2, 0, 0⟩) ∧
    (⟨some 1, some 3, false, "cat".toList⟩ : TesterState).sample =
      "cat".toList := by
  have hfin : finish ⟨some 1, some 2, true, "cat".toList⟩ [] 3 =
      some (⟨some 1, some 3, false, "cat".toList⟩, ⟨2, 0, 0⟩) := by
    simp [finish, elapsedOf, truthyTime, get_typed_text, rstripNewlines,
      correctChars, wpmOf, minutesOf, accuracyOf]
    norm_num
  refine ⟨(reset_clears_timing_preserves_sample
      ⟨some 1, some 2, true, "cat".toList⟩).2.2.2.1, hfin, ?_⟩
  exact (reset_clears_timing_preserves_sample
      ⟨some 1, some 2, true, "cat".toList⟩).2.2.2.2.2.1 [] 3 _ hfin

/-- Helper: stripping trailing newlines absorbs appended newlines. -/
theorem rstripNewlines_append_newlines (raw : List Char) (k : ℕ) :
    rstripNewlines (raw ++ List.replicate k '\n') = rstripNewlines raw := by
  unfold rstripNewlines
  rw [List.reverse_append, List.reverse_replicate]
  congr 1
  induction k with
  | zero => simp
  | succ n ih => simp [List.replicate_succ, ih]

/-- C9: all scoring reads the typed text through `get_typed_text`, which
strips every trailing newline, so appending trailing newlines to the raw
widget contents changes neither the typed text used for scoring, nor the
outcome of `finish`, nor the outcome of a keystroke event. -/
theorem scoring_ignores_trailing_newlines (raw : List Char) (k : ℕ)
    (st : TesterState) (ev : List Char) (now : ℚ) :
    get_typed_text (raw ++ List.replicate k '\n') = get_typed_text raw ∧
    finish st (raw ++ List.replicate k '\n') now = finish st raw now ∧
    on_key_press st ev (raw ++ List.replicate k '\n') now =
      on_key_press st ev raw now := by
  have key : get_typed_text (raw ++ List.replicate k '\n') =
      get_typed_text raw := rstripNewlines_append_newlines raw k
  refine ⟨key, ?_, ?_⟩
  · unfold finish
    rw [key]
  · unfold on_key_press
    rw [key]

/-- C10: the `correct_chars` count never exceeds the length of either the
typed text or the sample, and consequently the accuracy reported by every
successful `finish` call lies in `[0, 100]`. -/
theorem correctChars_bound_accuracy_range (T S : List Char)
    (st : TesterState) (raw : List Char) (now : ℚ)
    (p : TesterState × FinishResult) (h : finish st raw now = some p) :
    correctChars T S ≤ min T.length S.length ∧
    0 ≤ p.2.accuracy ∧ p.2.accuracy ≤ 100 := by
  refine ⟨correctChars_le_min_length T S, ?_⟩
  rw [finish_eq_some_iff st raw now p h]
  exact accuracyOf_mem_Icc _ _
    (le_trans (correctChars_le_min_length (get_typed_text raw) st.sample)
      (min_le_left _ _))

/-- Witness for C10 at sample `"cat"`, typed `"cxxx"`. -/
theorem correctChars_bound_accuracy_range_witness :
    finish ⟨some 1, none, true, "cat".toList⟩ ("cxxx".toList) 2 =
      some (⟨some 1, some 2, false, "cat".toList⟩, ⟨1, 12, 25⟩) ∧
    correctChars ("cxxx".toList) ("cat".toList) ≤
      min ("cxxx".toList).length ("cat".toList).length ∧
    0 ≤ (FinishResult.mk 1 12 25).accuracy ∧
    (FinishResult.mk 1 12 25).accuracy ≤ 100 := by
  have hfin : finish ⟨some 1, none, true, "cat".toList⟩ ("cxxx".toList) 2 =
      some (⟨some 1, some 2, false, "cat".toList⟩, ⟨1, 12, 25⟩) := by
    simp [finish, elapsedOf, truthyTime, get_typed_text, rstripNewlines,
      wpmOf, minutesOf, accuracyOf]
    norm_num [correctChars, String.toList, if_neg (show ¬('x' = 'a') by decide),
      if_neg (show ¬('x' = 't') by decide)]
  have hmain := correctChars_bound_accuracy_range ("cxxx".toList)
    ("cat".toList) ⟨some 1, none, true, "cat".toList⟩ ("cxxx".toList) 2
    (⟨some 1, some 2, false, "cat".toList⟩, ⟨1, 12, 25⟩) hfin
  exact ⟨hfin, hmain.1, hmain.2.1, hmain.2.2⟩

/-- C7: the divisor `minutes` is strictly positive for every elapsed time
(`1e-9` is substituted whenever `elapsed` is not strictly positive, in
particular at 0), so the WPM division never divides by zero, and `finish`
produces a result whenever the NotStarted guard does not fire. -/
theorem minutesOf_pos_finish_total :
    (∀ e : ℚ, 0 < minutesOf e) ∧
    (∀ (st : TesterState) (raw : List Char) (now : ℚ),
      st.running = true ∨ truthyTime st.start_time = true →
      (finish st raw now).isSome = true) := by
  constructor
  · intro e
    unfold minutesOf
    split
    · rename_i he
      exact div_pos he (by norm_num)
    · norm_num
  · intro st raw now h
    unfold finish
    split
    · rename_i hg
      rcases h with h | h
      · rw [hg.1] at h; exact absurd h (by simp)
      · rw [hg.2] at h; exact absurd h (by simp)
    · simp

/-- Witness for C7: positive divisor at elapsed 0, successful finish on a
running state. -/
theorem minutesOf_pos_finish_total_witness :
    0 < minutesOf 0 ∧
    (finish ⟨some 1, none, true, []⟩ [] 2).isSome = true :=
  ⟨minutesOf_pos_finish_total.1 0,
   minutesOf_pos_finish_total.2 ⟨some 1, none, true, []⟩ [] 2 (Or.inl rfl)⟩

/-- C2 counterexample: a keystroke registered at wall-clock time 0 sets
`start_time = 0.0`; the first `finish` succeeds, but the repeated `finish`
after finalization fails with NotStarted, because Python's
`not self.start_time` treats the timestamp `0.0` like a missing one. -/
theorem finish_repeat_counterexample :
    on_key_press ⟨none, none, false, "cat".toList⟩ ['c'] ['c'] 0 =
      (⟨some 0, none, true, "cat".toList⟩, false) ∧
    finish ⟨some 0, none, true, "cat".toList⟩ ("ca".toList) 1 =
      some (⟨some 0, some 1, false, "cat".toList⟩, ⟨0, 400000000, 100⟩) ∧
    finish ⟨some 0, some 1, false, "cat".toList⟩ ("cat".toList) 2 = none := by
  refine ⟨by decide, ?_, ?_⟩
  · simp [finish, elapsedOf, truthyTime, get_typed_text, rstripNewlines,
      correctChars, wpmOf, minutesOf, accuracyOf]
    norm_num
  · simp [finish, truthyTime]

/-- C2 (amended): `finish` fails with NotStarted iff `running` is false and
`start_time` is missing or equal to the zero timestamp (Python falsiness);
after a keystroke registered at any nonzero time, every `finish` call
succeeds. -/
theorem finish_notStarted_iff (st : TesterState) (raw : List Char) (now : ℚ) :
    (finish st raw now = none ↔
      st.running = false ∧
        (st.start_time = none ∨ st.start_time = some 0)) ∧
    (∀ t, st.start_time = some t → t ≠ 0 →
      (finish st raw now).isSome = true) := by
  have htruthy : truthyTime st.start_time = false ↔
      st.start_time = none ∨ st.start_time = some 0 := by
    cases h : st.start_time with
    | none => simp [truthyTime]
    | some t => simp [truthyTime]
  unfold finish
  split
  · rename_i hg
    refine ⟨⟨fun _ => ⟨hg.1, htruthy.mp hg.2⟩, fun _ => rfl⟩, ?_⟩
    intro t ht htnz
    rcases htruthy.mp hg.2 with h0 | h0 <;> rw [ht] at h0
    · exact absurd h0 (by simp)
    · exact absurd (Option.some.inj h0) htnz
  · rename_i hg
    refine ⟨⟨fun h => absurd h (by simp), fun h => ?_⟩,
      fun t ht htnz => by simp⟩
    exact absurd ⟨h.1, htruthy.mpr h.2⟩ hg

/-- Witness for the amended C2: a finalized state that kept a nonzero
`start_time` lets a repeated `finish` succeed. -/
theorem finish_notStarted_iff_witness :
    ((⟨some 1, none, false, []⟩ : TesterState).start_time = some 1) ∧
    (1 : ℚ) ≠ 0 ∧
    (finish ⟨some 1, none, false, []⟩ [] 2).isSome = true :=
  ⟨rfl, by norm_num,
    (finish_notStarted_iff ⟨some 1, none, false, []⟩ [] 2).2 1 rfl
      (by norm_num)⟩

/-- C4 counterexample: when the clock difference is negative (started at 5,
finished at 3) the reported elapsed time is `-2`, not `max(3 - 5, 0) = 0`:
line 131 has no clamping to zero. -/
theorem finish_negative_elapsed_counterexample :
    finish ⟨some 5, none, true, "ab".toList⟩ [] 3 =
      some (⟨some 5, some 3, false, "ab".toList⟩, ⟨-2, 0, 0⟩) ∧
    (-2 : ℚ) < 0 ∧ max ((3 : ℚ) - 5) 0 = 0 := by
  refine ⟨?_, by norm_num, max_eq_right (by norm_num)⟩
  simp [finish, elapsedOf, truthyTime, get_typed_text, rstripNewlines,
    correctChars, wpmOf, minutesOf, accuracyOf]
  norm_num

/-- C4 (amended): on every successful `finish`, the reported elapsed time is
`finishedAt - startedAt` whenever `start_time` holds a nonzero timestamp
(this difference may be negative — there is no clamping), and it is `0`
when `start_time` is missing or holds the zero timestamp. -/
theorem finish_elapsed_characterization (st : TesterState) (raw : List Char)
    (now : ℚ) (p : TesterState × FinishResult)
    (h : finish st raw now = some p) :
    (∀ t, st.start_time = some t → t ≠ 0 → p.2.elapsed = now - t) ∧
    (st.start_time = none → p.2.elapsed = 0) ∧
    (st.start_time = some 0 → p.2.elapsed = 0) := by
  rw [finish_eq_some_iff st raw now p h]
  refine ⟨?_, ?_, ?_⟩
  · intro t ht htnz
    simp [elapsedOf, truthyTime, ht, htnz]
  · intro h0
    simp [elapsedOf, truthyTime, h0]
  · intro h0
    simp [elapsedOf, truthyTime, h0]

/-- Witness for the amended C4 at `startedAt = 5`, `finishedAt = 3`. -/
theorem finish_elapsed_characterization_witness :
    finish ⟨some 5, none, true, "ab".toList⟩ [] 3 =
      some (⟨some 5, some 3, false, "ab".toList⟩, ⟨-2, 0, 0⟩) ∧
    (FinishResult.mk (-2) 0 0).elapsed = 3 - 5 := by
  have hfin : finish ⟨some 5, none, true, "ab".toList⟩ [] 3 =
      some (⟨some 5, some 3, false, "ab".toList⟩, ⟨-2, 0, 0⟩) := by
    simp [finish, elapsedOf, truthyTime, get_typed_text, rstripNewlines,
      correctChars, wpmOf, minutesOf, accuracyOf]
    norm_num
  exact ⟨hfin,
    (finish_elapsed_characterization ⟨some 5, none, true, "ab".toList⟩ [] 3
      (⟨some 5, some 3, false, "ab".toList⟩, ⟨-2, 0, 0⟩) hfin).1 5 rfl
      (by norm_num)⟩

/-- C5 counterexample: with `correctChars = 5`, the WPM at elapsed time 0
(where the epsilon `1e-9` is substituted, giving `10^9`) is strictly
smaller than the WPM at the larger elapsed time `10^-9` seconds (which
gives `6 * 10^10`), so WPM is not non-increasing on all of `[0, ∞)`. -/
theorem wpm_not_monotone_counterexample :
    0 < 5 ∧ (0 : ℚ) ≤ 0 ∧ (0 : ℚ) ≤ 1 / 1000000000 ∧
    wpmOf 5 0 < wpmOf 5 (1 / 1000000000) := by
  refine ⟨by norm_num, le_refl 0, by norm_num, ?_⟩
  unfold wpmOf minutesOf
  rw [if_neg (by norm_num), if_pos (by norm_num)]
  norm_num

/-- C5 (amended): for fixed `correctChars > 0`, WPM is monotonically
non-increasing in the elapsed time over all strictly positive elapsed
times; the epsilon-substituted point at elapsed `0` is excluded, since
there WPM can be smaller than at tiny positive elapsed times. -/
theorem wpmOf_antitone_on_pos (c : ℕ) (hc : 0 < c) (e1 e2 : ℚ)
    (h1 : 0 < e1) (h12 : e1 ≤ e2) : wpmOf c e2 ≤ wpmOf c e1 := by
  have h2 : 0 < e2 := lt_of_lt_of_le h1 h12
  unfold wpmOf minutesOf
  rw [if_pos h1, if_pos h2]
  gcongr

/-- Witness for the amended C5 at `c = 1`, `e1 = 1`, `e2 = 2`. -/
theorem wpmOf_antitone_on_pos_witness :
    0 < 1 ∧ (0 : ℚ) < 1 ∧ (1 : ℚ) ≤ 2 ∧ wpmOf 1 2 ≤ wpmOf 1 1 :=
  ⟨by norm_num, by norm_num, by norm_num,
    wpmOf_antitone_on_pos 1 (by norm_num) 1 2 (by norm_num) (by norm_num)⟩
